import Mathlib

/-!
# Morpheuz analogue watch face (`src/analogue.c`)

A shallow embedding of the analogue face module of the Morpheuz sleep monitor:
the dial state kept in the module's statics, the three notifiers that write it
(`analogue_set_smart_times`, `analogue_set_base`, `analogue_set_progress`), the
mark loop of `draw_marks`, the background redraw `bg_update_proc`, and the
show/hide logic of `analogue_visible` with its completion handler
`animation_stopped`.

Conventions.
* `int16_t` statics are integers; every store goes through `toInt16`.
* `int` arithmetic is exact integer arithmetic (signed overflow has no defined
  result in C); `/` and `%` of C are the truncating `Int.tdiv` and `Int.tmod`.
* Calls into the Pebble SDK and into other modules are recorded, in program
  order, in the list a function returns next to the new state.
-/

namespace Morpheuz

/-! ## Machine arithmetic -/

/-- Conversion of an integer value to `int16_t` (two's complement wrap-around). -/
def toInt16 (x : Int) : Int := (x + 32768) % 65536 - 32768

/-- Conversion of an integer value to `uint8_t`. -/
def toUInt8 (x : Int) : Int := x % 256

/-- The C operator `/` on integers: the quotient truncated towards zero. -/
def c_div (a b : Int) : Int := Int.tdiv a b

/-- The C operator `%` on integers: the remainder has the sign of the dividend. -/
def c_rem (a b : Int) : Int := Int.tmod a b

/-- Pebble SDK constant `TRIG_MAX_ANGLE` of `pebble.h`, `0x10000`: one full turn. -/
def TRIG_MAX_ANGLE : Int := 65536

/-- Pebble SDK constant `TRIG_MAX_RATIO` of `pebble.h`, `0xffff`: the fixed-point one. -/
def TRIG_MAX_RATIO : Int := 65535

/-! ## Data model -/

/-- Modelled from the spec: the configuration record returned by `get_config_data()`,
declared in `morpheuz.h`, of which this module reads `smart`, `from` and `to`. The
specification gives the raw from/to values as minute-of-day values, and they are
modelled as such, in 0..1439. The integer type of the two fields belongs to the same
missing declaration: on minute-of-day values the expression `(raw * 2) % 1440` has one
value whatever that type is (the product is at most 2878), outside them its value
depends on the signedness and the width of the type. -/
structure ConfigData where
  smart : Bool
  from_ : Fin 1440
  to_ : Fin 1440
deriving DecidableEq, Repr

/-- The fields of `struct tm` read by this module. -/
structure Tm where
  tm_hour : Int
  tm_min : Int
deriving DecidableEq, Repr

/-- The statics of `analogue.c`: the dial state read by `bg_update_proc`, and the
two flags of the show/hide logic. The value `-1` in `start_time`, `progress_1`
and `progress_2` means that the field is unset. -/
structure Analogue where
  show_smart_points : Bool
  from_time : Int
  to_time : Int
  start_time : Int
  start_time_round : Int
  progress_1 : Int
  progress_2 : Int
  is_visible : Bool
  g_call_post_init : Bool
deriving DecidableEq, Repr

/-- The two layers owned by the module. -/
inductive LayerId
  | analogue_layer
  | hands_layer
deriving DecidableEq, Repr

/-- The two frames the face slides between (`ANALOGUE_START` is off screen,
`ANALOGUE_FINISH` is on screen). -/
inductive Frame
  | ANALOGUE_START
  | ANALOGUE_FINISH
deriving DecidableEq, Repr

/-- Calls made by the notifiers and by the show/hide logic, with their arguments.
`app_timer_register ms` registers `post_init_hook` after `ms` milliseconds;
`animation_set_handlers_stopped` installs `animation_stopped` as the handler. -/
inductive HostCall
  | layer_mark_dirty (l : LayerId)
  | property_animation_create_layer_frame (l : LayerId) (start finish : Frame)
  | animation_set_duration
  | animation_set_handlers_stopped
  | animation_schedule
  | bed_visible (b : Bool)
  | app_timer_register (ms : Nat)
deriving DecidableEq, Repr

/-- The colour names used by the background redraw. -/
inductive GColor
  | BACKGROUND_COLOR
  | ANALOGUE_COLOR
  | FROM_TIME_COLOR
  | TO_TIME_COLOR
  | MINUTE_MARK_COLOR
  | START_TIME_COLOR
  | PROGRESS_COLOR
  | HOUR_MARK_COLOR
deriving DecidableEq, Repr

/-- A point of the drawing surface (`int16_t` coordinates). -/
structure GPoint where
  x : Int
  y : Int
deriving DecidableEq, Repr

/-- A rectangle of the drawing surface: origin and size. -/
structure GRect where
  origin : GPoint
  w : Int
  h : Int
deriving DecidableEq, Repr

/-- Graphics calls made by `draw_marks`. -/
inductive GfxCall
  | graphics_context_set_stroke_color (c : GColor)
  | graphics_context_set_stroke_width (w : Int)
  | graphics_draw_line (p0 p1 : GPoint)
deriving DecidableEq, Repr

/-- The SDK functions `draw_marks` computes with: the fixed-point sine and cosine
tables and the centre of a rectangle. -/
structure Pebble where
  sin_lookup : Int → Int
  cos_lookup : Int → Int
  grect_center_point : GRect → GPoint

/-- The macros of `analogue.h` used by the background redraw, and the platform
switch `PBL_COLOR`. -/
structure FaceMacros where
  OUTER_STOP : Int
  OUTER : Int
  MIN : Int
  CLOCK : Int
  HOUR : Int
  MINUTE_STEP : Int
  PROGRESS_STEP : Int
  PBL_COLOR : Bool

/-- Calls made by `bg_update_proc`, with their arguments; a call of `draw_marks`
is one mark pass. -/
inductive BgCall
  | graphics_context_set_fill_color (c : GColor)
  | graphics_fill_rect
  | graphics_context_set_compositing_mode
  | draw_marks (inner outer start stop step width : Int) (color : GColor)
deriving DecidableEq, Repr

/-! ## Notifiers -/

/-- The tail shared by the notifiers: `if (is_visible) layer_mark_dirty(analogue_layer)`. -/
def mark_dirty_if_visible (s : Analogue) : List HostCall :=
  if s.is_visible then [HostCall.layer_mark_dirty LayerId.analogue_layer] else []

/-- `analogue_set_smart_times()`. -/
def analogue_set_smart_times (cfg : ConfigData) (s : Analogue) : Analogue × List HostCall :=
  let s := { s with show_smart_points := cfg.smart }
  let s := { s with from_time := toInt16 (c_rem ((cfg.from_.val : Int) * 2) 1440) }
  let s := { s with to_time := toInt16 (c_rem ((cfg.to_.val : Int) * 2) 1440) }
  (s, mark_dirty_if_visible s)

/-- `analogue_set_base(base)`; `localtime` is the C library function. -/
def analogue_set_base (localtime : Int → Tm) (base : Int) (s : Analogue) :
    Analogue × List HostCall :=
  let s :=
    if base = 0 then
      let s := { s with start_time := -1 }
      { s with start_time_round := 0 }
    else
      let time := localtime base
      let s := { s with start_time := toInt16 (c_rem (time.tm_hour * 120 + time.tm_min * 2) 1440) }
      { s with start_time_round := toInt16 (s.start_time - c_rem s.start_time 24) }
  (s, mark_dirty_if_visible s)

/-- `analogue_set_progress(progress_level_in)`; the argument is converted to `uint8_t`. -/
def analogue_set_progress (progress_level_in : Int) (s : Analogue) : Analogue × List HostCall :=
  let level := toUInt8 progress_level_in
  let s := { s with progress_1 := toInt16 (s.start_time_round + toInt16 level * 20) }
  let s :=
    if s.progress_1 ≥ 1440 then
      let s := { s with progress_2 := toInt16 (s.progress_1 - 1440) }
      { s with progress_1 := 1439 }
    else
      { s with progress_2 := -1 }
  (s, mark_dirty_if_visible s)

/-- The part of `analogue_window_load` that initialises the dial state. -/
def analogue_window_load (s : Analogue) : Analogue :=
  { s with
    show_smart_points := false
    from_time := 0
    to_time := 0
    start_time := -1
    start_time_round := 0
    progress_1 := -1
    progress_2 := -1 }

/-! ## Show and hide -/

/-- `animation_stopped`: the handler run when the slide completes. -/
def animation_stopped (s : Analogue) : List HostCall :=
  (if s.is_visible then [HostCall.bed_visible false] else []) ++
  (if s.g_call_post_init then [HostCall.app_timer_register 250] else [])

/-- `start_animation(start, finish)`. -/
def start_animation (start finish : Frame) : List HostCall :=
  [HostCall.property_animation_create_layer_frame LayerId.analogue_layer start finish,
   HostCall.animation_set_duration,
   HostCall.animation_set_handlers_stopped,
   HostCall.animation_schedule]

/-- `analogue_visible(visible, call_post_init)`. -/
def analogue_visible (visible call_post_init : Bool) (s : Analogue) : Analogue × List HostCall :=
  let calls :=
    if visible && !s.is_visible then
      start_animation Frame.ANALOGUE_START Frame.ANALOGUE_FINISH
    else if !visible && s.is_visible then
      start_animation Frame.ANALOGUE_FINISH Frame.ANALOGUE_START ++ [HostCall.bed_visible true]
    else if call_post_init then
      [HostCall.app_timer_register 250]
    else
      []
  let s := { s with g_call_post_init := call_post_init }
  let s := { s with is_visible := visible }
  (s, calls)

/-! ## Drawing marks -/

/-- The angle of position `i` in `draw_marks`: `TRIG_MAX_ANGLE * i / 1440`. -/
def second_angle (i : Int) : Int := c_div (TRIG_MAX_ANGLE * i) 1440

/-- One coordinate of an end point in `draw_marks`:
`(int16_t) (trig * (int32_t) pixels / TRIG_MAX_RATIO) + centre`, stored in an `int16_t`. -/
def project (trig pixels centre : Int) : Int :=
  toInt16 (toInt16 (c_div (trig * pixels) TRIG_MAX_RATIO) + centre)

/-- The body of the loop of `draw_marks` at position `i`: the line drawn. -/
def mark_segment (P : Pebble) (center : GPoint) (pixelsInner pixelsOuter : Int) (i : Int) :
    GfxCall :=
  let angle := second_angle i
  let minus_cos := -(P.cos_lookup angle)
  let plus_sin := P.sin_lookup angle
  let pointInner : GPoint :=
    { y := project minus_cos pixelsInner center.y, x := project plus_sin pixelsInner center.x }
  let pointOuter : GPoint :=
    { y := project minus_cos pixelsOuter center.y, x := project plus_sin pixelsOuter center.x }
  GfxCall.graphics_draw_line pointInner pointOuter

/-- The loop `for (int i = start; i < stop; i += step)` of `draw_marks`, entered with
counter `i`: the lines drawn, in order, or `none` when `fuel` iterations do not
bring the counter to `stop`. -/
def draw_marks_loop (body : Int → GfxCall) (stop step : Int) : Nat → Int → Option (List GfxCall)
  | 0, i => if i < stop then none else some []
  | fuel + 1, i =>
    if i < stop then
      match draw_marks_loop body stop step fuel (i + step) with
      | some rest => some (body i :: rest)
      | none => none
    else
      some []

/-- `draw_marks(layer, ctx, inner, outer, start, stop, step, width, color)`, where
`bounds` is `layer_get_bounds(layer)`. -/
def draw_marks (P : Pebble) (bounds : GRect) (inner outer start stop step width : Int)
    (color : GColor) (fuel : Nat) : Option (List GfxCall) :=
  let center := P.grect_center_point bounds
  let furthestOut := toInt16 (c_div bounds.w 2)
  let pixelsInner := toInt16 (furthestOut - inner)
  let pixelsOuter := toInt16 (furthestOut - outer)
  match draw_marks_loop (mark_segment P center pixelsInner pixelsOuter) stop step fuel start with
  | some lines =>
    some ([GfxCall.graphics_context_set_stroke_color color,
           GfxCall.graphics_context_set_stroke_width width] ++ lines)
  | none => none

/-- `WIDTH_SMART_POINTS`. -/
def WIDTH_SMART_POINTS : Int := 3

/-- `WIDTH_HOUR_MARKS`. -/
def WIDTH_HOUR_MARKS : Int := 3

/-- `WIDTH_MINUTES`, that is `PBL_IF_COLOR_ELSE(2,1)`. -/
def WIDTH_MINUTES (K : FaceMacros) : Int := if K.PBL_COLOR then 2 else 1

/-- `bg_update_proc`: the calls made by one redraw of the background layer. -/
def bg_update_proc (K : FaceMacros) (s : Analogue) : List BgCall :=
  let log := [BgCall.graphics_context_set_fill_color GColor.BACKGROUND_COLOR,
              BgCall.graphics_fill_rect,
              BgCall.graphics_context_set_fill_color GColor.ANALOGUE_COLOR]
  let log := if K.PBL_COLOR then log ++ [BgCall.graphics_context_set_compositing_mode] else log
  let log :=
    if s.show_smart_points then
      let log := log ++ [BgCall.draw_marks K.OUTER_STOP K.OUTER s.from_time (s.from_time + 1) 1
        WIDTH_SMART_POINTS GColor.FROM_TIME_COLOR]
      log ++ [BgCall.draw_marks K.OUTER_STOP K.OUTER s.to_time (s.to_time + 1) 1
        WIDTH_SMART_POINTS GColor.TO_TIME_COLOR]
    else log
  let log := log ++ [BgCall.draw_marks K.MIN K.CLOCK 0 1440 K.MINUTE_STEP (WIDTH_MINUTES K)
    GColor.MINUTE_MARK_COLOR]
  let log :=
    if s.start_time ≠ -1 then
      let log := log ++ [BgCall.draw_marks K.OUTER_STOP K.OUTER s.start_time (s.start_time + 1) 1
        WIDTH_SMART_POINTS GColor.START_TIME_COLOR]
      if s.progress_1 ≠ -1 then
        let log := log ++ [BgCall.draw_marks K.MIN K.CLOCK s.start_time_round s.progress_1
          K.PROGRESS_STEP (WIDTH_MINUTES K) GColor.PROGRESS_COLOR]
        if s.progress_2 ≠ -1 then
          log ++ [BgCall.draw_marks K.MIN K.CLOCK 0 s.progress_2
            K.PROGRESS_STEP (WIDTH_MINUTES K) GColor.PROGRESS_COLOR]
        else log
      else log
    else log
  log ++ [BgCall.draw_marks K.HOUR K.CLOCK 0 1440 120 WIDTH_HOUR_MARKS GColor.HOUR_MARK_COLOR]

/-! ## Vocabulary of the properties -/

/-- A stored field is unset. -/
def unset (v : Int) : Prop := v = -1

instance (v : Int) : Decidable (unset v) := by unfold unset; infer_instance

/-- The dial fields written by `analogue_set_smart_times`. -/
def alarm_fields (s : Analogue) : Bool × Int × Int :=
  (s.show_smart_points, s.from_time, s.to_time)

/-- The dial fields written by `analogue_set_base`. -/
def base_fields (s : Analogue) : Int × Int := (s.start_time, s.start_time_round)

/-- The dial fields written by `analogue_set_progress`. -/
def progress_fields (s : Analogue) : Int × Int := (s.progress_1, s.progress_2)

/-- The two flags of the show/hide logic. -/
def transition_fields (s : Analogue) : Bool × Bool := (s.is_visible, s.g_call_post_init)

/-- Every stored minute value is normalised. -/
def Normalised (s : Analogue) : Prop :=
  (0 ≤ s.from_time ∧ s.from_time < 1440) ∧
  (0 ≤ s.to_time ∧ s.to_time < 1440) ∧
  (unset s.start_time ∨ (0 ≤ s.start_time ∧ s.start_time < 1440)) ∧
  (0 ≤ s.start_time_round ∧ s.start_time_round < 1440) ∧
  (unset s.progress_1 ∨ (0 ≤ s.progress_1 ∧ s.progress_1 ≤ 1439)) ∧
  (unset s.progress_2 ∨ (0 ≤ s.progress_2 ∧ s.progress_2 < 1440))

instance (s : Analogue) : Decidable (Normalised s) := by unfold Normalised; infer_instance

/-- The broken-down time returned by `localtime` is in the range the C library gives:
hour in 0..23, minute in 0..59. -/
def Tm.valid (t : Tm) : Prop :=
  (0 ≤ t.tm_hour ∧ t.tm_hour ≤ 23) ∧ (0 ≤ t.tm_min ∧ t.tm_min ≤ 59)

/-- The dial states reached from face load by calls of the three notifiers (and of
the show/hide entry point), where the local times are valid and the progress levels
are in 0..54. -/
inductive Reachable : Analogue → Prop
  | load (s0 : Analogue) : Reachable (analogue_window_load s0)
  | smart_times (cfg : ConfigData) (s : Analogue) :
      Reachable s → Reachable (analogue_set_smart_times cfg s).1
  | base (localtime : Int → Tm) (base : Int) (s : Analogue) :
      (localtime base).valid → Reachable s →
      Reachable (analogue_set_base localtime base s).1
  | progress (level : Int) (s : Analogue) :
      0 ≤ level → level ≤ 54 → Reachable s →
      Reachable (analogue_set_progress level s).1
  | visible (v p : Bool) (s : Analogue) :
      Reachable s → Reachable (analogue_visible v p s).1

/-- The number of positions `start + k * step` below `stop`. -/
def mark_count (start stop step : Int) : Nat :=
  if start < stop then ((stop - start + step - 1) / step).toNat else 0

/-- The positions `start`, `start + step`, ... below `stop`, in increasing order. -/
def mark_positions (start stop step : Int) : List Int :=
  (List.range (mark_count start stop step)).map (fun (k : Nat) => start + (k : Int) * step)

/-- The conversion of an angle back to the minute domain in the words of the property:
`angle * 1440 / TRIG_MAX_ANGLE`. The source converts in one direction only. -/
def spec_angle_to_minute (angle : Int) : Int := c_div (angle * 1440) TRIG_MAX_ANGLE

/-- The progress arcs among the calls of a redraw, as (start, stop) pairs. -/
def progress_arcs (calls : List BgCall) : List (Int × Int) :=
  calls.filterMap (fun c => match c with
    | BgCall.draw_marks _ _ start stop _ _ GColor.PROGRESS_COLOR => some (start, stop)
    | _ => none)

/-! ## Arithmetic lemmas -/

theorem toInt16_of_range {x : Int} (h0 : -32768 ≤ x) (h1 : x < 32768) : toInt16 x = x := by
  unfold toInt16
  omega

theorem c_rem_of_nonneg {a b : Int} (ha : 0 ≤ a) (hb : 0 ≤ b) : c_rem a b = a % b :=
  Int.tmod_eq_emod ha hb

theorem c_div_of_nonneg {a b : Int} (ha : 0 ≤ a) (hb : 0 ≤ b) : c_div a b = a / b :=
  Int.tdiv_eq_ediv ha hb

theorem c_rem_neg_left (a b : Int) : c_rem (-a) b = -(c_rem a b) := by
  unfold c_rem
  rw [Int.tmod_def, Int.tmod_def, Int.neg_tdiv]
  ring

theorem c_rem_range (a : Int) {b : Int} (hb : 0 < b) : -b < c_rem a b ∧ c_rem a b < b := by
  rcases le_total 0 a with ha | ha
  · rw [c_rem_of_nonneg ha hb.le]
    have h1 := Int.emod_nonneg a hb.ne.symm
    have h2 := Int.emod_lt_of_pos a hb
    omega
  · have hna : 0 ≤ -a := by omega
    have h := c_rem_neg_left (-a) b
    rw [neg_neg] at h
    rw [h, c_rem_of_nonneg hna hb.le]
    have h1 := Int.emod_nonneg (-a) hb.ne.symm
    have h2 := Int.emod_lt_of_pos (-a) hb
    omega

theorem toInt16_c_rem_1440 (a : Int) : toInt16 (c_rem a 1440) = c_rem a 1440 := by
  have h := c_rem_range a (show (0 : Int) < 1440 by norm_num)
  exact toInt16_of_range (by omega) (by omega)

/-! ## The notifiers -/

theorem analogue_set_progress_eval (s : Analogue) (level : Int)
    (hl0 : 0 ≤ level) (hl : level ≤ 54)
    (h0 : 0 ≤ s.start_time_round) (h1 : s.start_time_round < 1440) :
    (analogue_set_progress level s).1.progress_1
      = (if 1440 ≤ s.start_time_round + level * 20 then 1439
         else s.start_time_round + level * 20) ∧
    (analogue_set_progress level s).1.progress_2
      = (if 1440 ≤ s.start_time_round + level * 20 then s.start_time_round + level * 20 - 1440
         else -1) := by
  have hlev : toInt16 (toUInt8 level) = level := by
    unfold toInt16 toUInt8
    omega
  have hraw : toInt16 (s.start_time_round + level * 20) = s.start_time_round + level * 20 :=
    toInt16_of_range (by omega) (by omega)
  unfold analogue_set_progress
  simp only [hlev, hraw]
  by_cases hc : 1440 ≤ s.start_time_round + level * 20
  · have hw : toInt16 (s.start_time_round + level * 20 - 1440)
        = s.start_time_round + level * 20 - 1440 := toInt16_of_range (by omega) (by omega)
    rw [if_pos hc, if_pos hc, if_pos hc]
    exact ⟨rfl, hw⟩
  · rw [if_neg hc, if_neg hc, if_neg hc]
    exact ⟨rfl, rfl⟩

/-- C1. `analogue_set_progress(level)` with `level` in 0..54 and `start_time_round` in
[0,1440): with `raw = start_time_round + level * 20`, `progress_1` ends at most 1439 and
`progress_2` is set exactly when `raw ≥ 1440`; then `progress_1 = 1439` and
`progress_2 = raw - 1440`, otherwise `progress_1 = raw` and `progress_2` is unset. -/
theorem analogue_set_progress_split (s : Analogue) (level : Int)
    (hl0 : 0 ≤ level) (hl : level ≤ 54)
    (h0 : 0 ≤ s.start_time_round) (h1 : s.start_time_round < 1440) :
    (analogue_set_progress level s).1.progress_1 ≤ 1439 ∧
    (¬ unset (analogue_set_progress level s).1.progress_2 ↔
      1440 ≤ s.start_time_round + level * 20) ∧
    (1440 ≤ s.start_time_round + level * 20 →
      (analogue_set_progress level s).1.progress_1 = 1439 ∧
      (analogue_set_progress level s).1.progress_2 = s.start_time_round + level * 20 - 1440) ∧
    (s.start_time_round + level * 20 < 1440 →
      (analogue_set_progress level s).1.progress_1 = s.start_time_round + level * 20 ∧
      unset (analogue_set_progress level s).1.progress_2) := by
  obtain ⟨e1, e2⟩ := analogue_set_progress_eval s level hl0 hl h0 h1
  unfold unset
  rw [e1, e2]
  by_cases hc : 1440 ≤ s.start_time_round + level * 20
  · rw [if_pos hc, if_pos hc]
    omega
  · rw [if_neg hc, if_neg hc]
    omega

/-- The two scenarios of C1: from `start_time_round = 1400`, level 3 gives
`progress_1 = 1439` and `progress_2 = 20`; from `start_time_round = 0`, level 10 gives
`progress_1 = 200` and `progress_2` unset. -/
theorem analogue_set_progress_split_witness :
    ((analogue_set_progress 3 (⟨false, 0, 0, 1400, 1400, -1, -1, false, false⟩ : Analogue)).1.progress_1
        = 1439 ∧
      (analogue_set_progress 3 (⟨false, 0, 0, 1400, 1400, -1, -1, false, false⟩ : Analogue)).1.progress_2
        = (1400 : Int) + 3 * 20 - 1440) ∧
    ((analogue_set_progress 10 (⟨false, 0, 0, 0, 0, -1, -1, false, false⟩ : Analogue)).1.progress_1
        = (0 : Int) + 10 * 20 ∧
      unset (analogue_set_progress 10 (⟨false, 0, 0, 0, 0, -1, -1, false, false⟩ : Analogue)).1.progress_2) :=
  ⟨(analogue_set_progress_split ⟨false, 0, 0, 1400, 1400, -1, -1, false, false⟩ 3
      (by decide) (by decide) (by decide) (by decide)).2.2.1 (by decide),
   (analogue_set_progress_split ⟨false, 0, 0, 0, 0, -1, -1, false, false⟩ 10
      (by decide) (by decide) (by decide) (by decide)).2.2.2 (by decide)⟩

theorem analogue_set_base_zero (localtime : Int → Tm) (base : Int) (s : Analogue)
    (hb : base = 0) :
    (analogue_set_base localtime base s).1.start_time = -1 ∧
    (analogue_set_base localtime base s).1.start_time_round = 0 := by
  unfold analogue_set_base
  rw [if_pos hb]
  exact ⟨rfl, rfl⟩

theorem analogue_set_base_nonzero (localtime : Int → Tm) (base : Int) (s : Analogue)
    (hb : base ≠ 0) (hv : (localtime base).valid) :
    (analogue_set_base localtime base s).1.start_time
      = ((localtime base).tm_hour * 120 + (localtime base).tm_min * 2) % 1440 ∧
    (analogue_set_base localtime base s).1.start_time_round
      = ((localtime base).tm_hour * 120 + (localtime base).tm_min * 2) % 1440
        - ((localtime base).tm_hour * 120 + (localtime base).tm_min * 2) % 1440 % 24 := by
  obtain ⟨⟨hh0, hh1⟩, hm0, hm1⟩ := hv
  have hnn : 0 ≤ (localtime base).tm_hour * 120 + (localtime base).tm_min * 2 := by omega
  have hst : toInt16 (c_rem ((localtime base).tm_hour * 120 + (localtime base).tm_min * 2) 1440)
      = ((localtime base).tm_hour * 120 + (localtime base).tm_min * 2) % 1440 := by
    rw [toInt16_c_rem_1440, c_rem_of_nonneg hnn (by norm_num)]
  have hst0 : 0 ≤ ((localtime base).tm_hour * 120 + (localtime base).tm_min * 2) % 1440 := by
    omega
  have hrd : toInt16 (((localtime base).tm_hour * 120 + (localtime base).tm_min * 2) % 1440
        - c_rem (((localtime base).tm_hour * 120 + (localtime base).tm_min * 2) % 1440) 24)
      = ((localtime base).tm_hour * 120 + (localtime base).tm_min * 2) % 1440
        - (((localtime base).tm_hour * 120 + (localtime base).tm_min * 2) % 1440) % 24 := by
    rw [c_rem_of_nonneg hst0 (by norm_num)]
    exact toInt16_of_range (by omega) (by omega)
  unfold analogue_set_base
  rw [if_neg hb]
  dsimp only
  rw [hst, hrd]
  exact ⟨rfl, rfl⟩

theorem analogue_set_base_frame (localtime : Int → Tm) (base : Int) (s : Analogue) :
    alarm_fields (analogue_set_base localtime base s).1 = alarm_fields s ∧
    progress_fields (analogue_set_base localtime base s).1 = progress_fields s := by
  unfold analogue_set_base alarm_fields progress_fields
  by_cases hb : base = 0
  · rw [if_pos hb]
    exact ⟨rfl, rfl⟩
  · rw [if_neg hb]
    exact ⟨rfl, rfl⟩

/-- C2. `analogue_set_base(0)` leaves `start_time` unset and `start_time_round = 0`; for a
non-zero `base` whose local time has hour `h` in 0..23 and minute `m` in 0..59 it sets
`start_time = (h * 120 + m * 2) mod 1440` and
`start_time_round = start_time - start_time mod 24`, a multiple of 24 with
`0 ≤ start_time - start_time_round < 24`. The alarm-window fields and the progress
fields keep their values in both cases. -/
theorem analogue_set_base_fields (localtime : Int → Tm) (base : Int) (s : Analogue) :
    (base = 0 →
      unset (analogue_set_base localtime base s).1.start_time ∧
      (analogue_set_base localtime base s).1.start_time_round = 0) ∧
    (base ≠ 0 → (localtime base).valid →
      (analogue_set_base localtime base s).1.start_time
        = ((localtime base).tm_hour * 120 + (localtime base).tm_min * 2) % 1440 ∧
      (analogue_set_base localtime base s).1.start_time_round
        = (analogue_set_base localtime base s).1.start_time
          - (analogue_set_base localtime base s).1.start_time % 24 ∧
      (24 : Int) ∣ (analogue_set_base localtime base s).1.start_time_round ∧
      0 ≤ (analogue_set_base localtime base s).1.start_time
          - (analogue_set_base localtime base s).1.start_time_round ∧
      (analogue_set_base localtime base s).1.start_time
          - (analogue_set_base localtime base s).1.start_time_round < 24) ∧
    alarm_fields (analogue_set_base localtime base s).1 = alarm_fields s ∧
    progress_fields (analogue_set_base localtime base s).1 = progress_fields s := by
  refine ⟨?_, ?_, (analogue_set_base_frame localtime base s).1,
    (analogue_set_base_frame localtime base s).2⟩
  · intro hb
    exact analogue_set_base_zero localtime base s hb
  · intro hb hv
    obtain ⟨e1, e2⟩ := analogue_set_base_nonzero localtime base s hb hv
    rw [e2, e1]
    omega

/-- C2 at two inputs: clearing a running session, and a session started at 07:35. -/
theorem analogue_set_base_fields_witness :
    (unset (analogue_set_base (fun _ => ⟨7, 35⟩) 0
        (⟨true, 10, 20, 500, 480, 700, -1, true, false⟩ : Analogue)).1.start_time ∧
      (analogue_set_base (fun _ => ⟨7, 35⟩) 0
        (⟨true, 10, 20, 500, 480, 700, -1, true, false⟩ : Analogue)).1.start_time_round = 0) ∧
    (analogue_set_base (fun _ => ⟨7, 35⟩) 1600000000
        (⟨true, 10, 20, -1, 0, -1, -1, true, false⟩ : Analogue)).1.start_time
      = ((7 : Int) * 120 + 35 * 2) % 1440 :=
  ⟨(analogue_set_base_fields (fun _ => ⟨7, 35⟩) 0
      ⟨true, 10, 20, 500, 480, 700, -1, true, false⟩).1 rfl,
   ((analogue_set_base_fields (fun _ => ⟨7, 35⟩) 1600000000
      ⟨true, 10, 20, -1, 0, -1, -1, true, false⟩).2.1 (by decide)
      ⟨⟨by decide, by decide⟩, by decide, by decide⟩).1⟩

theorem smart_time_eval (raw : Fin 1440) :
    toInt16 (c_rem ((raw.val : Int) * 2) 1440) = ((raw.val : Int) * 2) % 1440 := by
  rw [toInt16_c_rem_1440, c_rem_of_nonneg (by omega) (by norm_num)]

theorem normalised_load (s0 : Analogue) : Normalised (analogue_window_load s0) := by
  unfold Normalised analogue_window_load unset
  simp

theorem normalised_smart_times (cfg : ConfigData) (s : Analogue) (hs : Normalised s) :
    Normalised (analogue_set_smart_times cfg s).1 := by
  obtain ⟨_, _, h3, h4, h5, h6⟩ := hs
  have hf := cfg.from_.isLt
  have ht := cfg.to_.isLt
  refine ⟨?_, ?_, h3, h4, h5, h6⟩
  · show 0 ≤ toInt16 (c_rem ((cfg.from_.val : Int) * 2) 1440) ∧
      toInt16 (c_rem ((cfg.from_.val : Int) * 2) 1440) < 1440
    rw [smart_time_eval]
    omega
  · show 0 ≤ toInt16 (c_rem ((cfg.to_.val : Int) * 2) 1440) ∧
      toInt16 (c_rem ((cfg.to_.val : Int) * 2) 1440) < 1440
    rw [smart_time_eval]
    omega

theorem normalised_base (localtime : Int → Tm) (base : Int) (s : Analogue)
    (hv : (localtime base).valid) (hs : Normalised s) :
    Normalised (analogue_set_base localtime base s).1 := by
  obtain ⟨h1, h2, _, _, h5, h6⟩ := hs
  obtain ⟨hA, hP⟩ := analogue_set_base_frame localtime base s
  unfold alarm_fields at hA
  unfold progress_fields at hP
  simp only [Prod.mk.injEq] at hA hP
  obtain ⟨_, hA2, hA3⟩ := hA
  obtain ⟨hP1, hP2⟩ := hP
  unfold Normalised
  rw [hA2, hA3, hP1, hP2]
  by_cases hb : base = 0
  · obtain ⟨e1, e2⟩ := analogue_set_base_zero localtime base s hb
    rw [e1, e2]
    exact ⟨h1, h2, Or.inl rfl, by omega, h5, h6⟩
  · obtain ⟨e1, e2⟩ := analogue_set_base_nonzero localtime base s hb hv
    rw [e1, e2]
    exact ⟨h1, h2, Or.inr (by omega), by omega, h5, h6⟩

theorem analogue_set_progress_frame (level : Int) (s : Analogue) :
    alarm_fields (analogue_set_progress level s).1 = alarm_fields s ∧
    base_fields (analogue_set_progress level s).1 = base_fields s := by
  unfold analogue_set_progress alarm_fields base_fields
  by_cases hc : toInt16 (s.start_time_round + toInt16 (toUInt8 level) * 20) ≥ 1440
  · simp only [if_pos hc, and_self]
  · simp only [if_neg hc, and_self]

theorem normalised_progress (level : Int) (s : Analogue) (hl0 : 0 ≤ level) (hl : level ≤ 54)
    (hs : Normalised s) : Normalised (analogue_set_progress level s).1 := by
  obtain ⟨h1, h2, h3, h4, _, _⟩ := hs
  obtain ⟨e1, e2⟩ := analogue_set_progress_eval s level hl0 hl h4.1 h4.2
  obtain ⟨hA, hB⟩ := analogue_set_progress_frame level s
  unfold alarm_fields at hA
  unfold base_fields at hB
  simp only [Prod.mk.injEq] at hA hB
  obtain ⟨_, hA2, hA3⟩ := hA
  obtain ⟨hB1, hB2⟩ := hB
  unfold Normalised unset
  rw [hA2, hA3, hB1, hB2, e1, e2]
  refine ⟨h1, h2, h3, h4, ?_, ?_⟩
  · right
    by_cases hc : 1440 ≤ s.start_time_round + level * 20
    · rw [if_pos hc]
      omega
    · rw [if_neg hc]
      omega
  · by_cases hc : 1440 ≤ s.start_time_round + level * 20
    · rw [if_pos hc]
      right
      omega
    · rw [if_neg hc]
      exact Or.inl rfl

theorem normalised_visible (v p : Bool) (s : Analogue) (hs : Normalised s) :
    Normalised (analogue_visible v p s).1 := hs

/-- C5, as stated, fails: after `analogue_visible(false, true)` on a visible face, the
completion handler registers the post-init timer. -/
theorem hide_completion_schedules_timer :
    (⟨false, 0, 0, -1, 0, -1, -1, true, false⟩ : Analogue).is_visible = true ∧
    animation_stopped
        (analogue_visible false true ⟨false, 0, 0, -1, 0, -1, -1, true, false⟩).1
      = [HostCall.app_timer_register 250] ∧
    animation_stopped
        (analogue_visible false true ⟨false, 0, 0, -1, 0, -1, -1, true, false⟩).1 ≠ [] := by
  decide

/-- C5, amended. `analogue_visible(false, call_post_init)` on a visible face creates the
animation of the face layer from the on-screen frame to the off-screen frame, installs
`animation_stopped` as its handler, schedules it and then calls `bed_visible(true)`, all
within the call;
when the animation completes, `animation_stopped` does not toggle the companion view,
and it registers the post-init timer (once, 250 ms) exactly when `call_post_init` was
true: with `call_post_init` false it does nothing. -/
theorem analogue_visible_hide (s : Analogue) (call_post_init : Bool)
    (hv : s.is_visible = true) :
    (analogue_visible false call_post_init s).2
      = [HostCall.property_animation_create_layer_frame LayerId.analogue_layer
           Frame.ANALOGUE_FINISH Frame.ANALOGUE_START,
         HostCall.animation_set_duration,
         HostCall.animation_set_handlers_stopped,
         HostCall.animation_schedule,
         HostCall.bed_visible true] ∧
    (analogue_visible false call_post_init s).1.is_visible = false ∧
    animation_stopped (analogue_visible false call_post_init s).1
      = (if call_post_init then [HostCall.app_timer_register 250] else []) ∧
    (∀ b, HostCall.bed_visible b ∉ animation_stopped (analogue_visible false call_post_init s).1) ∧
    (call_post_init = false → animation_stopped (analogue_visible false call_post_init s).1 = []) := by
  obtain ⟨a, b, c, d, e, f, g, vis, gp⟩ := s
  simp only at hv
  subst hv
  cases call_post_init <;> simp [analogue_visible, animation_stopped, start_animation]

/-- C5 at a concrete state: the calls of the hide, and the completion for both values
of `call_post_init`. -/
theorem analogue_visible_hide_witness :
    (analogue_visible false true ⟨true, 1320, 120, 500, 480, 700, -1, true, false⟩).2
      = [HostCall.property_animation_create_layer_frame LayerId.analogue_layer
           Frame.ANALOGUE_FINISH Frame.ANALOGUE_START,
         HostCall.animation_set_duration,
         HostCall.animation_set_handlers_stopped,
         HostCall.animation_schedule,
         HostCall.bed_visible true] ∧
    animation_stopped
        (analogue_visible false false ⟨true, 1320, 120, 500, 480, 700, -1, true, true⟩).1 = [] ∧
    animation_stopped
        (analogue_visible false true ⟨true, 1320, 120, 500, 480, 700, -1, true, false⟩).1
      = (if true then [HostCall.app_timer_register 250] else []) :=
  ⟨(analogue_visible_hide ⟨true, 1320, 120, 500, 480, 700, -1, true, false⟩ true rfl).1,
   (analogue_visible_hide ⟨true, 1320, 120, 500, 480, 700, -1, true, true⟩ false rfl).2.2.2.2 rfl,
   (analogue_visible_hide ⟨true, 1320, 120, 500, 480, 700, -1, true, false⟩ true rfl).2.2.1⟩

/-- C6. `analogue_visible(true, call_post_init)` on a hidden face creates the animation
of the face layer from the off-screen frame to the on-screen frame, installs
`animation_stopped` as its handler and schedules it; within the call it neither toggles
the companion view nor registers a timer; when the animation completes, `animation_stopped` calls
`bed_visible(false)` and registers the post-init timer, once and with the 250 ms delay,
exactly when `call_post_init` was true. -/
theorem analogue_visible_show (s : Analogue) (call_post_init : Bool)
    (hv : s.is_visible = false) :
    (analogue_visible true call_post_init s).2
      = [HostCall.property_animation_create_layer_frame LayerId.analogue_layer
           Frame.ANALOGUE_START Frame.ANALOGUE_FINISH,
         HostCall.animation_set_duration,
         HostCall.animation_set_handlers_stopped,
         HostCall.animation_schedule] ∧
    (∀ b, HostCall.bed_visible b ∉ (analogue_visible true call_post_init s).2) ∧
    (∀ ms, HostCall.app_timer_register ms ∉ (analogue_visible true call_post_init s).2) ∧
    (analogue_visible true call_post_init s).1.is_visible = true ∧
    animation_stopped (analogue_visible true call_post_init s).1
      = HostCall.bed_visible false
        :: (if call_post_init then [HostCall.app_timer_register 250] else []) ∧
    (animation_stopped (analogue_visible true call_post_init s).1).count
        (HostCall.app_timer_register 250)
      = (if call_post_init then 1 else 0) ∧
    (∀ ms, HostCall.app_timer_register ms
        ∈ animation_stopped (analogue_visible true call_post_init s).1 →
      ms = 250 ∧ call_post_init = true) := by
  obtain ⟨a, b, c, d, e, f, g, vis, gp⟩ := s
  simp only at hv
  subst hv
  cases call_post_init <;> simp [analogue_visible, animation_stopped, start_animation]

/-- C6 at a concrete state: the calls of the show, and the completion with the
post-init callback requested. -/
theorem analogue_visible_show_witness :
    (analogue_visible true true ⟨true, 1320, 120, 500, 480, 700, -1, false, false⟩).2
      = [HostCall.property_animation_create_layer_frame LayerId.analogue_layer
           Frame.ANALOGUE_START Frame.ANALOGUE_FINISH,
         HostCall.animation_set_duration,
         HostCall.animation_set_handlers_stopped,
         HostCall.animation_schedule] ∧
    animation_stopped
        (analogue_visible true true ⟨true, 1320, 120, 500, 480, 700, -1, false, false⟩).1
      = HostCall.bed_visible false
        :: (if true then [HostCall.app_timer_register 250] else []) :=
  ⟨(analogue_visible_show ⟨true, 1320, 120, 500, 480, 700, -1, false, false⟩ true rfl).1,
   (analogue_visible_show ⟨true, 1320, 120, 500, 480, 700, -1, false, false⟩ true rfl).2.2.2.2.1⟩

/-- C7. `analogue_visible(v, call_post_init)` with `v` equal to the current visibility
starts no animation, does not toggle the companion view and leaves the visibility and
the dial state as they are; it registers the post-init timer immediately, exactly once,
when `call_post_init` is true, and makes no call at all otherwise. -/
theorem analogue_visible_same (s : Analogue) (v call_post_init : Bool)
    (hv : v = s.is_visible) :
    (analogue_visible v call_post_init s).2
      = (if call_post_init then [HostCall.app_timer_register 250] else []) ∧
    HostCall.animation_schedule ∉ (analogue_visible v call_post_init s).2 ∧
    (∀ b, HostCall.bed_visible b ∉ (analogue_visible v call_post_init s).2) ∧
    ((analogue_visible v call_post_init s).2).count (HostCall.app_timer_register 250)
      = (if call_post_init then 1 else 0) ∧
    (analogue_visible v call_post_init s).1.is_visible = s.is_visible ∧
    alarm_fields (analogue_visible v call_post_init s).1 = alarm_fields s ∧
    base_fields (analogue_visible v call_post_init s).1 = base_fields s ∧
    progress_fields (analogue_visible v call_post_init s).1 = progress_fields s := by
  obtain ⟨a, b, c, d, e, f, g, vis, gp⟩ := s
  simp only at hv
  subst hv
  cases v <;> cases call_post_init <;>
    simp [analogue_visible, alarm_fields, base_fields, progress_fields]

/-- C7 at two concrete states: show while visible with the callback requested, hide
while hidden without it. -/
theorem analogue_visible_same_witness :
    (analogue_visible true true ⟨true, 1320, 120, 500, 480, 700, -1, true, false⟩).2
      = (if true then [HostCall.app_timer_register 250] else []) ∧
    (analogue_visible false false ⟨true, 1320, 120, 500, 480, 700, -1, false, true⟩).2
      = (if false then [HostCall.app_timer_register 250] else []) :=
  ⟨(analogue_visible_same ⟨true, 1320, 120, 500, 480, 700, -1, true, false⟩ true true rfl).1,
   (analogue_visible_same ⟨true, 1320, 120, 500, 480, 700, -1, false, true⟩ false false rfl).1⟩

/-! ## The mark loop -/

theorem lt_mark_count_iff (start stop step : Int) (hstep : 0 < step) (k : Nat) :
    k < mark_count start stop step ↔ start + (k : Int) * step < stop := by
  have hk : 0 ≤ (k : Int) * step := Int.mul_nonneg (Int.ofNat_nonneg k) hstep.le
  unfold mark_count
  by_cases h : start < stop
  · rw [if_pos h, Int.lt_toNat, Int.lt_iff_add_one_le, Int.le_ediv_iff_mul_le hstep]
    have e : ((k : Int) + 1) * step = (k : Int) * step + step := by ring
    rw [e]
    omega
  · rw [if_neg h]
    constructor
    · intro h0
      exact absurd h0 (Nat.not_lt_zero k)
    · intro h0
      omega

theorem mark_count_eq_zero (start stop step : Int) (h : stop ≤ start) :
    mark_count start stop step = 0 := by
  unfold mark_count
  rw [if_neg (by omega)]

theorem mark_count_step (start stop step : Int) (hstep : 0 < step) (h : start < stop) :
    mark_count start stop step = mark_count (start + step) stop step + 1 := by
  apply Nat.le_antisymm
  · by_contra hlt
    have hlt2 : mark_count (start + step) stop step + 1 < mark_count start stop step := by
      omega
    rw [lt_mark_count_iff start stop step hstep] at hlt2
    have h1 : ¬ (mark_count (start + step) stop step < mark_count (start + step) stop step) :=
      Nat.lt_irrefl _
    rw [lt_mark_count_iff (start + step) stop step hstep] at h1
    push_cast at hlt2
    have e : ((mark_count (start + step) stop step : Int) + 1) * step
        = (mark_count (start + step) stop step : Int) * step + step := by ring
    rw [e] at hlt2
    omega
  · rcases Nat.eq_zero_or_pos (mark_count (start + step) stop step) with h0 | h0
    · rw [h0]
      have := (lt_mark_count_iff start stop step hstep 0).2 (by simpa using h)
      omega
    · have h1 : mark_count (start + step) stop step - 1 < mark_count (start + step) stop step := by
        omega
      rw [lt_mark_count_iff (start + step) stop step hstep] at h1
      have h2 : (mark_count (start + step) stop step - 1 + 1 : Nat)
          < mark_count start stop step := by
        rw [lt_mark_count_iff start stop step hstep]
        push_cast
        have e : ((mark_count (start + step) stop step - 1 : Nat) + 1 : Int) * step
            = ((mark_count (start + step) stop step - 1 : Nat) : Int) * step + step := by ring
        rw [e]
        omega
      omega

theorem mark_positions_nil (start stop step : Int) (h : stop ≤ start) :
    mark_positions start stop step = [] := by
  unfold mark_positions
  rw [mark_count_eq_zero start stop step h]
  rfl

theorem mark_positions_cons (start stop step : Int) (hstep : 0 < step) (h : start < stop) :
    mark_positions start stop step = start :: mark_positions (start + step) stop step := by
  unfold mark_positions
  rw [mark_count_step start stop step hstep h, List.range_succ_eq_map, List.map_cons,
    List.map_map]
  congr 1
  · simp
  · apply List.map_congr_left
    intro k _
    simp only [Function.comp_apply, Nat.succ_eq_add_one, Nat.cast_add, Nat.cast_one]
    ring

theorem draw_marks_loop_eq (body : Int → GfxCall) (stop step : Int) (hstep : 0 < step) :
    ∀ (fuel : Nat) (i : Int), mark_count i stop step ≤ fuel →
      draw_marks_loop body stop step fuel i = some ((mark_positions i stop step).map body) := by
  intro fuel
  induction fuel with
  | zero =>
    intro i hc
    have hi : ¬ i < stop := by
      intro hlt
      have := mark_count_step i stop step hstep hlt
      omega
    unfold draw_marks_loop
    rw [if_neg hi, mark_positions_nil i stop step (by omega)]
    rfl
  | succ fuel ih =>
    intro i hc
    unfold draw_marks_loop
    by_cases hi : i < stop
    · have hs := mark_count_step i stop step hstep hi
      rw [if_pos hi, ih (i + step) (by omega), mark_positions_cons i stop step hstep hi]
      rfl
    · rw [if_neg hi, mark_positions_nil i stop step (by omega)]
      rfl

theorem mem_mark_positions (start stop step : Int) (hstep : 0 < step) (i : Int) :
    i ∈ mark_positions start stop step ↔ ∃ k : Nat, i = start + (k : Int) * step ∧ i < stop := by
  unfold mark_positions
  rw [List.mem_map]
  constructor
  · rintro ⟨k, hk, rfl⟩
    rw [List.mem_range, lt_mark_count_iff start stop step hstep] at hk
    exact ⟨k, rfl, hk⟩
  · rintro ⟨k, rfl, hk⟩
    exact ⟨k, List.mem_range.2 ((lt_mark_count_iff start stop step hstep k).2 hk), rfl⟩

theorem mark_positions_increasing (start stop step : Int) (hstep : 0 < step) :
    (mark_positions start stop step).Pairwise (fun a b => a < b) := by
  unfold mark_positions
  apply List.Pairwise.map _ _ (List.pairwise_lt_range _)
  intro a b hab
  have h : (a : Int) < (b : Int) := Int.ofNat_lt.2 hab
  have := Int.mul_lt_mul_of_pos_right h hstep
  omega

theorem mark_count_eq_ceil (start stop step : Int) (hstep : 0 < step) (h : start < stop) :
    (mark_count start stop step : Int) = ⌈((stop - start : Int) : ℚ) / ((step : Int) : ℚ)⌉ := by
  have hq : (0 : ℚ) < ((step : Int) : ℚ) := by exact_mod_cast hstep
  have hnn : 0 ≤ (stop - start + step - 1) / step :=
    Int.ediv_nonneg (by omega) hstep.le
  have hlo := Int.ediv_mul_le (stop - start + step - 1) hstep.ne.symm
  have hhi := Int.lt_ediv_add_one_mul_self (stop - start + step - 1) hstep
  have e : ((stop - start + step - 1) / step + 1) * step
      = (stop - start + step - 1) / step * step + step := by ring
  rw [e] at hhi
  unfold mark_count
  rw [if_pos h, Int.toNat_of_nonneg hnn]
  symm
  rw [Int.ceil_eq_iff]
  constructor
  · rw [lt_div_iff₀ hq]
    have h1 : ((stop - start + step - 1) / step - 1) * step < stop - start := by
      have e2 : ((stop - start + step - 1) / step - 1) * step
          = (stop - start + step - 1) / step * step - step := by ring
      rw [e2]
      omega
    exact_mod_cast h1
  · rw [div_le_iff₀ hq]
    have h2 : stop - start ≤ (stop - start + step - 1) / step * step := by omega
    exact_mod_cast h2

theorem mark_positions_in_int (start stop step : Int) (hstep : 0 < step)
    (hlo : -2147483648 ≤ start) (hhi : stop + step ≤ 2147483648) :
    ∀ i ∈ mark_positions start stop step, -2147483648 ≤ i ∧ i + step < 2147483648 := by
  intro i hi
  obtain ⟨k, rfl, hk⟩ := (mem_mark_positions start stop step hstep i).1 hi
  have hk0 : 0 ≤ (k : Int) * step := Int.mul_nonneg (Int.ofNat_nonneg k) hstep.le
  omega

/-- C9. For every minute in [0,1440) the angle `TRIG_MAX_ANGLE * minute / 1440` lies in
[0, TRIG_MAX_ANGLE), converting it back with `angle * 1440 / TRIG_MAX_ANGLE` gives
`minute` or `minute - 1`, hence a value within one unit of `minute`, and another minute
of [0,1440) has another angle. -/
theorem second_angle_roundtrip (minute : Int) (h0 : 0 ≤ minute) (h1 : minute < 1440) :
    (0 ≤ second_angle minute ∧ second_angle minute < TRIG_MAX_ANGLE) ∧
    |spec_angle_to_minute (second_angle minute) - minute| ≤ 1 ∧
    (minute - 1 ≤ spec_angle_to_minute (second_angle minute) ∧
      spec_angle_to_minute (second_angle minute) ≤ minute) ∧
    (∀ other : Int, 0 ≤ other → other < 1440 → other ≠ minute →
      second_angle other ≠ second_angle minute) := by
  have ea : ∀ m : Int, 0 ≤ m → second_angle m = 65536 * m / 1440 := by
    intro m hm
    unfold second_angle TRIG_MAX_ANGLE
    exact c_div_of_nonneg (by omega) (by norm_num)
  have hpos : 0 ≤ 65536 * minute / 1440 := by omega
  have eb : spec_angle_to_minute (65536 * minute / 1440) = 65536 * minute / 1440 * 1440 / 65536 := by
    unfold spec_angle_to_minute TRIG_MAX_ANGLE
    exact c_div_of_nonneg (by omega) (by norm_num)
  rw [ea minute h0, eb]
  refine ⟨⟨hpos, ?_⟩, ?_, ⟨?_, ?_⟩, ?_⟩
  · unfold TRIG_MAX_ANGLE
    omega
  · rw [abs_le]
    omega
  · omega
  · omega
  · intro other ho0 ho1 hne
    rw [ea other ho0]
    omega

/-- C9 at minute 1439, the last position of the dial: the angle is 65490 and the
conversion back gives 1438. -/
theorem second_angle_roundtrip_witness :
    second_angle 1439 < TRIG_MAX_ANGLE ∧
    |spec_angle_to_minute (second_angle 1439) - 1439| ≤ 1 ∧
    second_angle 1439 = 65490 ∧ spec_angle_to_minute (second_angle 1439) = 1438 :=
  ⟨(second_angle_roundtrip 1439 (by decide) (by decide)).1.2,
   (second_angle_roundtrip 1439 (by decide) (by decide)).2.1,
   by decide, by decide⟩

/-! ## The background redraw -/

theorem progress_arcs_bg_update_proc (K : FaceMacros) (s : Analogue) :
    progress_arcs (bg_update_proc K s)
      = (if s.start_time ≠ -1 then
          (if s.progress_1 ≠ -1 then
            (s.start_time_round, s.progress_1)
              :: (if s.progress_2 ≠ -1 then [((0 : Int), s.progress_2)] else [])
          else [])
        else []) := by
  unfold bg_update_proc progress_arcs
  split_ifs <;> simp

theorem analogue_set_progress_wrap_1400 (t : Analogue) (h : t.start_time_round = 1400) :
    (analogue_set_progress 3 t).1.progress_1 = 1439 ∧
    (analogue_set_progress 3 t).1.progress_2 = 20 := by
  obtain ⟨e1, e2⟩ := analogue_set_progress_eval t 3 (by decide) (by decide)
    (by rw [h]; decide) (by rw [h]; decide)
  rw [h] at e1 e2
  exact ⟨by rw [e1]; decide, by rw [e2]; decide⟩

/-- C10. One redraw of the background makes its calls in this order: the background
fill (and the context set-up); if `show_smart_points`, a point mark at `from_time` and
a point mark at `to_time`; the fine marks from 0 to 1440; if `start_time` is set, a
point mark at `start_time`, then if `progress_1` is set an arc from `start_time_round`
to `progress_1`, then if `progress_2` is set too an arc from 0 to `progress_2`; and
last the hour marks from 0 to 1440 with step 120. With `start_time` unset there is no
progress arc, and with a session started, `start_time_round = 1400` and level 3 the
progress arcs are exactly (1400, 1439) and (0, 20). -/
theorem bg_update_proc_order (K : FaceMacros) (s : Analogue) :
    bg_update_proc K s
      = ([BgCall.graphics_context_set_fill_color GColor.BACKGROUND_COLOR,
          BgCall.graphics_fill_rect,
          BgCall.graphics_context_set_fill_color GColor.ANALOGUE_COLOR]
          ++ (if K.PBL_COLOR then [BgCall.graphics_context_set_compositing_mode] else []))
        ++ (if s.show_smart_points then
              [BgCall.draw_marks K.OUTER_STOP K.OUTER s.from_time (s.from_time + 1) 1
                 WIDTH_SMART_POINTS GColor.FROM_TIME_COLOR,
               BgCall.draw_marks K.OUTER_STOP K.OUTER s.to_time (s.to_time + 1) 1
                 WIDTH_SMART_POINTS GColor.TO_TIME_COLOR]
            else [])
        ++ [BgCall.draw_marks K.MIN K.CLOCK 0 1440 K.MINUTE_STEP (WIDTH_MINUTES K)
              GColor.MINUTE_MARK_COLOR]
        ++ (if ¬ unset s.start_time then
              BgCall.draw_marks K.OUTER_STOP K.OUTER s.start_time (s.start_time + 1) 1
                  WIDTH_SMART_POINTS GColor.START_TIME_COLOR
                :: (if ¬ unset s.progress_1 then
                      BgCall.draw_marks K.MIN K.CLOCK s.start_time_round s.progress_1
                          K.PROGRESS_STEP (WIDTH_MINUTES K) GColor.PROGRESS_COLOR
                        :: (if ¬ unset s.progress_2 then
                              [BgCall.draw_marks K.MIN K.CLOCK 0 s.progress_2
                                 K.PROGRESS_STEP (WIDTH_MINUTES K) GColor.PROGRESS_COLOR]
                            else [])
                    else [])
            else [])
        ++ [BgCall.draw_marks K.HOUR K.CLOCK 0 1440 120 WIDTH_HOUR_MARKS
              GColor.HOUR_MARK_COLOR] ∧
    (bg_update_proc K s).getLast?
      = some (BgCall.draw_marks K.HOUR K.CLOCK 0 1440 120 WIDTH_HOUR_MARKS
          GColor.HOUR_MARK_COLOR) ∧
    (unset s.start_time → progress_arcs (bg_update_proc K s) = []) ∧
    (∀ t : Analogue, ¬ unset t.start_time → t.start_time_round = 1400 →
      progress_arcs (bg_update_proc K (analogue_set_progress 3 t).1)
        = [(1400, 1439), (0, 20)]) := by
  refine ⟨?_, ?_, ?_, ?_⟩
  · unfold bg_update_proc unset
    split_ifs <;> simp
  · unfold bg_update_proc
    split_ifs <;> simp
  · intro hu
    unfold unset at hu
    rw [progress_arcs_bg_update_proc, if_neg (by simp [hu])]
  · intro t hset hround
    unfold unset at hset
    obtain ⟨h1, h2⟩ := analogue_set_progress_wrap_1400 t hround
    have hB := (analogue_set_progress_frame 3 t).2
    unfold base_fields at hB
    simp only [Prod.mk.injEq] at hB
    rw [progress_arcs_bg_update_proc, hB.1, hB.2, h1, h2, hround, if_pos hset]
    decide

/-- C10 at two states: with `start_time` unset and stale progress fields no progress
arc is drawn; after level 3 from `start_time_round = 1400` on a started session the
two arcs are (1400, 1439) and (0, 20). -/
theorem bg_update_proc_order_witness :
    progress_arcs (bg_update_proc ⟨8, 0, 12, 4, 14, 24, 4, true⟩
        ⟨true, 1320, 120, -1, 0, 700, 20, true, false⟩) = [] ∧
    progress_arcs (bg_update_proc ⟨8, 0, 12, 4, 14, 24, 4, true⟩
        (analogue_set_progress 3 ⟨true, 1320, 120, 1405, 1400, -1, -1, true, false⟩).1)
      = [(1400, 1439), (0, 20)] :=
  ⟨(bg_update_proc_order ⟨8, 0, 12, 4, 14, 24, 4, true⟩
      ⟨true, 1320, 120, -1, 0, 700, 20, true, false⟩).2.2.1 rfl,
   (bg_update_proc_order ⟨8, 0, 12, 4, 14, 24, 4, true⟩
      ⟨true, 1320, 120, -1, 0, 700, 20, true, false⟩).2.2.2
      ⟨true, 1320, 120, 1405, 1400, -1, -1, true, false⟩ (by decide) rfl⟩

end Morpheuz
